import Mathlib

/-!
Shallow embedding of the RFantibody RF2 inference core
(`src/rfantibody/rf2/network/predict.py`, `Embeddings.py`, `RoseTTAFoldModel.py`).

Modelling conventions:
* machine floats are idealized as exact rationals `ℚ`; the square-root
  primitive (whose values are irrational) is passed in as an abstract
  function parameter `sq : ℚ → ℚ`, so every definition stays computable;
* tensors are total functions from (batch, index, ...) naturals to values;
  shape information appears as bounds in the theorem statements;
* in-place torch writes (`t[:, rows] = ...`) become functional updates
  folded over the block index list, mirroring the source loops;
* functions of the repository that are imported from files not present
  under `src/` (`util.get_Cb`, `util_module.rbf`, `xyz_converter.get_torsions`)
  are abstracted as parameters or modelled from the spec where noted.
-/

namespace RFantibody

/-! ### Block ("striping") machinery

`Embeddings.py` computes several `L×L` tensors in row/column blocks of size
`STRIDE`: `for i in range((L-1)//STRIDE+1): rows = arange(i*STRIDE, min((i+1)*STRIDE, L))`.
`blockFold n g init` is the functional form of such a loop, and `inBlock`
states that row `r` belongs to the `i`-th block. -/

/-- Number of blocks of the striped loops: `(L-1)//STRIDE + 1`. -/
def nBlocks (L S : ℕ) : ℕ := (L - 1) / S + 1

/-- Row `r` lies in block `i`: `i*S ≤ r < min ((i+1)*S) L`
(the `rows = torch.arange(i*STRIDE, min((i+1)*STRIDE, L))` range). -/
def inBlock (S L i r : ℕ) : Prop := i * S ≤ r ∧ r < min ((i + 1) * S) L

instance inBlock.instDec (S L i r : ℕ) : Decidable (inBlock S L i r) := by
  unfold inBlock; infer_instance

/-- Fold of the loop body `g` over block indices `0, 1, ..., n-1`. -/
def blockFold {β : Type} (n : ℕ) (g : ℕ → β → β) (init : β) : β :=
  (List.range n).foldl (fun acc i => g i acc) init

theorem blockFold_zero {β : Type} (g : ℕ → β → β) (init : β) :
    blockFold 0 g init = init := rfl

theorem blockFold_succ {β : Type} (n : ℕ) (g : ℕ → β → β) (init : β) :
    blockFold (n + 1) g init = g n (blockFold n g init) := by
  simp [blockFold, List.range_succ]

/-- An invariant preserved by every loop iteration holds of the fold. -/
theorem blockFold_invar {β : Type} (g : ℕ → β → β) (init : β) (Q : β → Prop)
    (h0 : Q init) (hs : ∀ i b, Q b → Q (g i b)) :
    ∀ n, Q (blockFold n g init) := by
  intro n
  induction n with
  | zero => simpa [blockFold_zero] using h0
  | succ m ih => rw [blockFold_succ]; exact hs m _ ih

/-- Observation `e` is untouched by all iterations before step `i₀`. -/
theorem blockFold_pre {β γ : Type} (g : ℕ → β → β) (init : β) (e : β → γ) (i₀ : ℕ)
    (hpre : ∀ i b, i < i₀ → e b = e init → e (g i b) = e init) :
    ∀ m, m ≤ i₀ → e (blockFold m g init) = e init := by
  intro m
  induction m with
  | zero => intro _; rfl
  | succ k ih =>
    intro h
    rw [blockFold_succ]
    exact hpre k _ (by omega) (ih (by omega))

/-- If step `i₀` writes the target value to observation `e`, steps before `i₀`
leave `e` at its initial value and steps after `i₀` preserve the target, then
the whole fold yields the target. -/
theorem blockFold_write {β γ : Type} (g : ℕ → β → β) (init : β) (e : β → γ)
    (tgt : γ) (i₀ : ℕ)
    (hpre : ∀ i b, i < i₀ → e b = e init → e (g i b) = e init)
    (hwrite : ∀ b, e b = e init → e (g i₀ b) = tgt)
    (hpost : ∀ i b, i₀ < i → e b = tgt → e (g i b) = tgt) :
    ∀ n, i₀ < n → e (blockFold n g init) = tgt := by
  intro n
  induction n with
  | zero => omega
  | succ m ih =>
    intro h
    rw [blockFold_succ]
    rcases Nat.lt_succ_iff_lt_or_eq.mp h with h' | h'
    · exact hpost m _ h' (ih h')
    · subst h'
      exact hwrite _ (blockFold_pre g init e i₀ hpre i₀ le_rfl)

theorem lt_succ_div_mul {r S : ℕ} (hS : 0 < S) : r < (r / S + 1) * S := by
  have h1 : S * (r / S) + r % S = r := Nat.div_add_mod r S
  have h2 : r % S < S := Nat.mod_lt r hS
  have h3 : (r / S + 1) * S = S * (r / S) + S := by ring
  omega

theorem inBlock_self {S L r : ℕ} (hS : 0 < S) (hr : r < L) : inBlock S L (r / S) r := by
  refine ⟨Nat.div_mul_le_self r S, lt_min (lt_succ_div_mul hS) hr⟩

theorem not_inBlock_of_div_lt {S L i r : ℕ} (hS : 0 < S) (h : r / S < i) :
    ¬ inBlock S L i r := by
  rintro ⟨h1, _⟩
  have h2 : r < (r / S + 1) * S := lt_succ_div_mul hS
  have h3 : (r / S + 1) * S ≤ i * S := Nat.mul_le_mul_right S (by omega)
  omega

theorem not_inBlock_of_lt_div {S L i r : ℕ} (h : i < r / S) : ¬ inBlock S L i r := by
  rintro ⟨_, h2⟩
  have h3 : (i + 1) * S ≤ (r / S) * S := Nat.mul_le_mul_right S (by omega)
  have h4 : (r / S) * S ≤ r := Nat.div_mul_le_self r S
  have h5 : r < (i + 1) * S := lt_of_lt_of_le h2 (min_le_left _ _)
  omega

theorem div_lt_nBlocks {S L r : ℕ} (_hS : 0 < S) (hr : r < L) : r / S < nBlocks L S := by
  have h1 : r ≤ L - 1 := by omega
  have h2 : r / S ≤ (L - 1) / S := Nat.div_le_div_right h1
  unfold nBlocks
  omega

/-! ### PositionalEncoding2D (`Embeddings.py`, `PositionalEncoding2D.forward`)

`bins = torch.arange(minpos, maxpos)`, `seqsep` is built with a constant fill
of `100` and only batch row `0` receives the actual index differences; the
optional `nc_cycle` wrap and the striped/unstriped embedding paths follow. -/

/-- Model of `torch.bucketize(v, bins)` (default `right=False`): the number of
boundaries strictly less than `v`. -/
def bucketize (bins : List ℤ) (v : ℤ) : ℕ :=
  (bins.filter (fun x => decide (x < v))).length

/-- Model of `torch.arange(lo, hi)` over integers. -/
def intRange (lo hi : ℤ) : List ℤ :=
  (List.range (hi - lo).toNat).map (fun k => lo + (k : ℤ))

/-- The cyclic wrap `(d + L//2) % L - L//2` applied to a sequence-index
difference when `nc_cycle` is set (`%` is nonnegative for `L > 0` both in
Python and for `Int.emod`). -/
def wrapCyclic (L : ℕ) (d : ℤ) : ℤ := (d + (L : ℤ) / 2) % (L : ℤ) - (L : ℤ) / 2

/-- Tensor `seqsep`: full tensor of `100`, batch row `0` overwritten with
`idx[0,None,:] - idx[0,:,None]`, then (still batch row `0` only) wrapped when
`nc_cycle` is set. -/
def seqsep (L : ℕ) (idx : ℕ → ℕ → ℤ) (nc_cycle : Bool) (b r c : ℕ) : ℤ :=
  if b = 0 then
    (if nc_cycle then wrapCyclic L (idx 0 c - idx 0 r) else idx 0 c - idx 0 r)
  else 100

/-- The doubly striped write loop of `PositionalEncoding2D.forward`:
row blocks outside, column blocks inside, each block region overwritten
with `f`. -/
def stripeGrid {α : Type} (L S : ℕ) (t : ℕ → ℕ → α) (f : ℕ → ℕ → α) : ℕ → ℕ → α :=
  blockFold (nBlocks L S)
    (fun i acc =>
      blockFold (nBlocks L S)
        (fun j acc2 =>
          fun r c => if inBlock S L i r ∧ inBlock S L j c then f r c else acc2 r c)
        acc)
    t

theorem stripeGrid_eval {α : Type} (L S : ℕ) (t : ℕ → ℕ → α) (f : ℕ → ℕ → α)
    (hS : 0 < S) {r c : ℕ} (hr : r < L) (hc : c < L) :
    stripeGrid L S t f r c = f r c := by
  unfold stripeGrid
  refine blockFold_write _ t (fun T => T r c) (f r c) (r / S) ?_ ?_ ?_
    (nBlocks L S) (div_lt_nBlocks hS hr)
  · intro i acc hi hacc
    refine Eq.trans ?_ hacc
    refine blockFold_invar _ acc (fun T => T r c = acc r c) rfl ?_ (nBlocks L S)
    intro j T hT
    have hnb : ¬ inBlock S L i r := not_inBlock_of_lt_div hi
    simp only [hnb, false_and, if_false]
    exact hT
  · intro acc _
    refine blockFold_write _ acc (fun T => T r c) (f r c) (c / S) ?_ ?_ ?_
      (nBlocks L S) (div_lt_nBlocks hS hc)
    · intro j T hj hT
      have hnb : ¬ inBlock S L j c := not_inBlock_of_lt_div hj
      simp only [hnb, and_false, if_false]
      exact hT
    · intro T _
      have h1 : inBlock S L (r / S) r := inBlock_self hS hr
      have h2 : inBlock S L (c / S) c := inBlock_self hS hc
      simp only [h1, h2, and_self, if_true]
    · intro j T hj hT
      have hnb : ¬ inBlock S L j c := not_inBlock_of_div_lt hS hj
      simp only [hnb, and_false, if_false]
      exact hT
  · intro i acc hi hacc
    refine Eq.trans ?_ hacc
    refine blockFold_invar _ acc (fun T => T r c = acc r c) rfl ?_ (nBlocks L S)
    intro j T hT
    have hnb : ¬ inBlock S L i r := not_inBlock_of_div_lt hS hi
    simp only [hnb, false_and, if_false]
    exact hT

/-- The value written at `(b, r, c)` on either path: embedding-table lookup of
the bucketized separation. -/
def posEmbAt {α : Type} (minpos maxpos : ℤ) (embT : ℕ → α) (L : ℕ)
    (idx : ℕ → ℕ → ℤ) (nc_cycle : Bool) (b r c : ℕ) : α :=
  embT (bucketize (intRange minpos maxpos) (seqsep L idx nc_cycle b r c))

/-- Forward pass of `PositionalEncoding2D`. `z` is the `torch.zeros` fill of the
striped output buffer; `stride`/`training` select `STRIDE` exactly as in the
source (`STRIDE = L`; `if not training and stride > 0: STRIDE = stride`;
striped branch iff `0 < STRIDE < L`). -/
def posEnc2DForward {α : Type} (minpos maxpos : ℤ) (embT : ℕ → α) (z : α)
    (L : ℕ) (idx : ℕ → ℕ → ℤ) (stride : ℤ) (training nc_cycle : Bool) :
    ℕ → ℕ → ℕ → α :=
  let STRIDE : ℕ := if ¬training ∧ 0 < stride then stride.toNat else L
  if 0 < STRIDE ∧ STRIDE < L then
    fun b => stripeGrid L STRIDE (fun _ _ => z)
      (fun r c => posEmbAt minpos maxpos embT L idx nc_cycle b r c)
  else
    fun b r c => posEmbAt minpos maxpos embT L idx nc_cycle b r c

/-! ### Best-of tracking (`predict.py`, `Predictor.run_prediction`)

`best_lddt = torch.tensor([-1.0])`, then per cycle:
`if pred_lddt.mean() < best_lddt.mean(): continue` else overwrite
`best_xyz/best_logit/best_lddt/best_pae` with this cycle's outputs.
A cycle is modelled as its mean predicted LDDT together with its full
output set (abstract type `α`). -/

structure BestTrack (α : Type) where
  best_lddt : ℚ
  best_out : Option α
deriving DecidableEq, Repr

/-- One iteration of the best-tracking tail of the recycle loop. -/
def stepBest {α : Type} (st : BestTrack α) (lddt : ℚ) (out : α) : BestTrack α :=
  if lddt < st.best_lddt then st
  else { best_lddt := lddt, best_out := some out }

/-- The whole recycle loop's best-tracking: fold over the per-cycle
(mean LDDT, outputs) pairs starting from `best_lddt = -1`, no stored output. -/
def runBest {α : Type} (cycles : List (ℚ × α)) : BestTrack α :=
  cycles.foldl (fun st cyc => stepBest st cyc.1 cyc.2) ⟨-1, none⟩

/-! ### Predictor construction (`predict.py`, `Predictor.__init__` / `load_model`)

`load_model` prints `ERROR: model weights ... not found` and returns `False`
when the checkpoint path does not exist; `__init__` then prints
`ERROR: failed to load model` and calls `sys.exit()`.  In Python,
`sys.exit()` with no argument raises `SystemExit(None)`, which terminates
the process with exit status `0`. -/

inductive InitOutcome
  /-- construction finished; prediction may proceed -/
  | ok
  /-- process terminated via `sys.exit()`: diagnostics printed so far and
  the process exit status -/
  | exited (printed : List String) (status : ℕ)
deriving DecidableEq, Repr

/-- Model of `Predictor.load_model`: returns (`could_load`, printed diagnostics).
The actual `torch.load`/`load_state_dict` call is external and assumed to
succeed on an existing checkpoint. -/
def load_model (pathExists : Bool) (path : String) : Bool × List String :=
  if pathExists then (true, [])
  else (false, ["ERROR: model weights " ++ path ++ " not found"])

/-- The checkpoint-loading tail of `Predictor.__init__`. -/
def predictorInit (pathExists : Bool) (path : String) : InitOutcome :=
  let res := load_model pathExists path
  if res.1 then .ok
  else .exited (res.2 ++ ["ERROR: failed to load model"]) 0

/-! ### The recycle-loop body as a name-binding trace (`predict.py`,
`Predictor.run_prediction`, recycle loop)

Claim C1 is about Python name resolution: the per-cycle logging f-string
reads `rmsd`, but the statement computing `rmsd` is commented out.  The loop
body is modelled as the sequence of its assignment targets in source order,
plus the f-string's reads; evaluation raises `NameError` at the first read
of an unbound name. -/

inductive Stmt
  /-- an assignment statement binding name `x` (values are irrelevant to
  name resolution) -/
  | assign (x : String)
  /-- the `print(f"recycle {i_cycle} plddt {...} pae {...} rmsd {rmsd[0]}")`
  statement: reads the listed names -/
  | printUse (reads : List String)
deriving DecidableEq, Repr

/-- Run a straight-line statement list in an environment of bound names. -/
def runStmts : List Stmt → List String → Except String (List String)
  | [], env => .ok env
  | .assign x :: rest, env => runStmts rest (x :: env)
  | .printUse reads :: rest, env =>
    match reads.find? (fun x => !(env.contains x)) with
    | some x => .error ("NameError: name " ++ x ++ " is not defined")
    | none => runStmts rest env

/-- Names bound by a statement list. -/
def assignedNames : List Stmt → List String
  | [] => []
  | .assign x :: rest => x :: assignedNames rest
  | .printUse _ :: rest => assignedNames rest

/-- The body of `for i_cycle in range(n_recycles+1):` in source order:
every assignment target, the logging print, then the best-tracking tail. -/
def cycleBody : List Stmt :=
  [ .assign "seq", .assign "msa_seed_orig", .assign "msa_seed",
    .assign "msa_extra", .assign "mask_msa",        -- MSAFeaturize tuple
    .assign "seq", .assign "msa_seed", .assign "msa_extra",  -- unsqueeze
    .assign "msa_seed", .assign "msa_extra",        -- .half() casts
    .assign "xyz_prev_prev",
    .assign "logit_s", .assign "logits_pae", .assign "p_bind",
    .assign "xyz_prev", .assign "alpha", .assign "symmsub",
    .assign "pred_lddt", .assign "msa_prev", .assign "pair_prev",
    .assign "state_prev",                           -- self.model(...) tuple
    .assign "alpha", .assign "xyz_prev",            -- [-1] selections
    .assign "xyz_prev",                             -- compute_all_atom
    .assign "mask_recycle", .assign "pair_prev", .assign "msa_prev",
    .assign "pred_lddt", .assign "pred_lddt", .assign "logits_pae",
    .printUse ["i_cycle", "pred_lddt", "logits_pae", "rmsd"],
    .assign "pred_lddt", .assign "logits_pae", .assign "logit_s",
    .assign "best_xyz", .assign "best_logit", .assign "best_lddt",
    .assign "best_pae", .assign "best_logit",
    .assign "pred_lddt", .assign "logits_pae", .assign "logit_s" ]

/-- One recycle iteration: the loop variable is bound, then the body runs. -/
def runCycle (env : List String) : Except String (List String) :=
  runStmts (.assign "i_cycle" :: cycleBody) env

/-! ### NaN torsion repair (`predict.py`, `Predictor.predict`, template pass)

`alpha, _, alpha_mask, _ = self.xyz_converter.get_torsions(...)` is external
(not under `src/`); its output is modelled as a tensor of optional rationals,
`none` standing for a float NaN.  The repair lines under `src/` are
`alpha_mask = torch.logical_and(alpha_mask, ~torch.isnan(alpha[..., 0]))`
and `alpha[torch.isnan(alpha)] = 0.0`.
Index order: (template, residue, torsion 0..9, component 0 = cos / 1 = sin). -/

/-- Line `alpha[torch.isnan(alpha)] = 0.0`: every NaN entry becomes `0`,
finite entries are untouched. -/
def repair_alpha (alpha : ℕ → ℕ → ℕ → ℕ → Option ℚ) :
    ℕ → ℕ → ℕ → ℕ → Option ℚ :=
  fun t r k c =>
    match alpha t r k c with
    | none => some 0
    | some v => some v

/-- Line `alpha_mask = torch.logical_and(alpha_mask, ~torch.isnan(alpha[..., 0]))`
(computed from the original, unrepaired `alpha`). -/
def repair_mask (alpha : ℕ → ℕ → ℕ → ℕ → Option ℚ)
    (mask : ℕ → ℕ → ℕ → Bool) : ℕ → ℕ → ℕ → Bool :=
  fun t r k => mask t r k && !(alpha t r k 0).isNone

/-- The per-torsion slice of `alpha_t = torch.cat((alpha, alpha_mask), dim=-1)`:
repaired cos, repaired sin, and the validity bit. -/
def alpha_t_feat (alpha : ℕ → ℕ → ℕ → ℕ → Option ℚ)
    (mask : ℕ → ℕ → ℕ → Bool) (t r k : ℕ) : Option ℚ × Option ℚ × ℚ :=
  (repair_alpha alpha t r k 0, repair_alpha alpha t r k 1,
   if repair_mask alpha mask t r k then 1 else 0)

/-! ### Symmetry expansion at emission (`predict.py`, `Predictor.run_prediction`)

```
best_xyzfull = torch.zeros((B, O*Lasu, 27, 3))
best_xyzfull[:, :Lasu] = best_xyz[:, :Lasu]
...
for i in range(1, O):
    best_xyzfull[:, i*Lasu:(i+1)*Lasu] = torch.einsum('ij,braj->brai', symmRs[i], best_xyz[:, :Lasu])
    seq_full[:, i*Lasu:(i+1)*Lasu] = seq[:, :Lasu]
    best_lddtfull[:, i*Lasu:(i+1)*Lasu] = best_lddt[:, :Lasu]
```
The per-residue payload is generic (`α`): 3D atom coordinates for `xyz`,
an integer token for `seq`, a rational for `lddt`. -/

def Vec3 : Type := Fin 3 → ℚ

def Mat3 : Type := Fin 3 → Fin 3 → ℚ

/-- Model of the einsum `ij,braj->brai` at one atom: matrix-vector product. -/
def mulVec3 (R : Mat3) (v : Vec3) : Vec3 := fun i => ∑ j, R i j * v j

/-- Update `full[i*Lasu:(i+1)*Lasu] = blk` as a functional update over residues. -/
def assignBlock {α : Type} (Lasu i : ℕ) (blk : ℕ → α) (full : ℕ → α) : ℕ → α :=
  fun r => if i * Lasu ≤ r ∧ r < (i + 1) * Lasu then blk (r - i * Lasu) else full r

/-- Zero buffer, first block copied, then `for i in range(1, O)` assigning the
`i`-th block from `blk i`. -/
def blockAssemble {α : Type} (O Lasu : ℕ) (z : α) (first : ℕ → α)
    (blk : ℕ → ℕ → α) : ℕ → α :=
  (List.range' 1 (O - 1)).foldl (fun acc i => assignBlock Lasu i (blk i) acc)
    (assignBlock Lasu 0 first (fun _ => z))

/-- Tensor `best_xyzfull`: residue → atom → coordinates. -/
def symmExpandXyz (O Lasu : ℕ) (symmRs : ℕ → Mat3) (xyz : ℕ → ℕ → Vec3) :
    ℕ → ℕ → Vec3 :=
  blockAssemble O Lasu (fun _ _ => (0 : ℚ)) xyz
    (fun i j a => mulVec3 (symmRs i) (xyz j a))

/-- Tensor `seq_full`: asymmetric-unit token sequence copied into every block. -/
def symmExpandSeq (O Lasu : ℕ) (seq : ℕ → ℤ) : ℕ → ℤ :=
  blockAssemble O Lasu 0 seq (fun _ j => seq j)

/-- Tensor `best_lddtfull`: per-residue LDDT copied into every block. -/
def symmExpandLddt (O Lasu : ℕ) (lddt : ℕ → ℚ) : ℕ → ℚ :=
  blockAssemble O Lasu 0 lddt (fun _ j => lddt j)

/-- Closed form of `blockAssemble`: the first block holds `first`, block `i`
(for `1 ≤ i < O`) holds `blk i`, and residues at or beyond `O*Lasu` keep the
zero fill. -/
theorem blockAssemble_eval {α : Type} (Lasu : ℕ) (z : α) (first : ℕ → α)
    (blk : ℕ → ℕ → α) :
    ∀ O, 1 ≤ O → ∀ r,
      (r < Lasu → blockAssemble O Lasu z first blk r = first r) ∧
      (∀ i j, 1 ≤ i → i < O → j < Lasu → r = i * Lasu + j →
        blockAssemble O Lasu z first blk r = blk i j) ∧
      (O * Lasu ≤ r → blockAssemble O Lasu z first blk r = z) := by
  intro O
  induction O with
  | zero => omega
  | succ m ih =>
    intro _ r
    by_cases hm : m = 0
    · subst hm
      simp only [blockAssemble, Nat.sub_self, List.range'_zero, List.foldl_nil]
      refine ⟨?_, ?_, ?_⟩
      · intro hr
        simp [assignBlock, hr]
      · intro i j h1 h2 _ _; omega
      · intro hr
        have h1 : (0 + 1) * Lasu = Lasu := by ring
        rw [h1] at hr
        have hcond : ¬ (0 * Lasu ≤ r ∧ r < (0 + 1) * Lasu) := by
          rw [h1, Nat.zero_mul]
          omega
        unfold assignBlock
        rw [if_neg hcond]
    · have hm1 : 1 ≤ m := by omega
      have hstep : blockAssemble (m + 1) Lasu z first blk =
          assignBlock Lasu m (blk m) (blockAssemble m Lasu z first blk) := by
        unfold blockAssemble
        have hr' : List.range' 1 (m + 1 - 1) = List.range' 1 (m - 1) ++ [m] := by
          have h2 : m + 1 - 1 = (m - 1) + 1 := by omega
          rw [h2, List.range'_concat]
          congr 1
          simp
          omega
        rw [hr', List.foldl_append]
        simp
      rw [hstep]
      have ihr := ih hm1 r
      by_cases hin : m * Lasu ≤ r ∧ r < (m + 1) * Lasu
      · refine ⟨?_, ?_, ?_⟩
        · intro hr
          have hmL : Lasu ≤ m * Lasu := by
            calc Lasu = 1 * Lasu := (Nat.one_mul _).symm
            _ ≤ m * Lasu := Nat.mul_le_mul_right _ hm1
          omega
        · intro i j h1 h2 hj hr
          have hie : i = m := by
            rcases Nat.lt_succ_iff_lt_or_eq.mp h2 with h' | h'
            · exfalso
              have : (i + 1) * Lasu ≤ m * Lasu := Nat.mul_le_mul_right _ (by omega)
              have : r < (i + 1) * Lasu := by
                have : i * Lasu + j < i * Lasu + Lasu := by omega
                calc r = i * Lasu + j := hr
                _ < i * Lasu + Lasu := this
                _ = (i + 1) * Lasu := by ring
              omega
            · exact h'
          subst hie
          simp only [assignBlock, hin, if_true]
          have hj2 : r - i * Lasu = j := by omega
          rw [hj2]
          simp
        · intro hr
          exfalso
          have : (m + 1) * Lasu ≤ r := hr
          omega
      · refine ⟨?_, ?_, ?_⟩
        · intro hr
          simp only [assignBlock, hin, if_false]
          exact ihr.1 hr
        · intro i j h1 h2 hj hr
          have hilt : i < m := by
            rcases Nat.lt_succ_iff_lt_or_eq.mp h2 with h' | h'
            · exact h'
            · exfalso
              subst h'
              apply hin
              constructor
              · omega
              · have : i * Lasu + j < i * Lasu + Lasu := by omega
                calc r = i * Lasu + j := hr
                _ < i * Lasu + Lasu := this
                _ = (i + 1) * Lasu := by ring
          simp only [assignBlock, hin, if_false]
          exact ihr.2.1 i j h1 hilt hj hr
        · intro hr
          have : m * Lasu ≤ r := by
            have : m * Lasu ≤ (m + 1) * Lasu := Nat.mul_le_mul_right _ (by omega)
            omega
          simp only [assignBlock, hin, if_false]
          exact ihr.2.2 (by
            have h2 : m * Lasu + Lasu = (m + 1) * Lasu := by ring
            omega)

/-! ### Recycling (`Embeddings.py`, `Recycling.forward`)

Learned parameters: the three `nn.LayerNorm`s (`norm_msa`, `norm_pair`,
`norm_state`, each an elementwise affine map of the standardized vector) and
the linear projection `proj_dist`.  `get_Cb` and `rbf` are imported from
files not under `src/` and are passed as abstract function parameters. -/

structure RecyclingParams where
  d_msa : ℕ
  d_pair : ℕ
  d_state : ℕ
  d_rbf : ℕ
  w_msa : ℕ → ℚ
  b_msa : ℕ → ℚ
  w_pair : ℕ → ℚ
  b_pair : ℕ → ℚ
  w_state : ℕ → ℚ
  b_state : ℕ → ℚ
  eps : ℚ
  w_dist : ℕ → ℕ → ℚ
  bias_dist : ℕ → ℚ

/-- Model of `nn.LayerNorm` over the last dimension of size `d`,
with weight `w`, bias `bb` and the abstract square root `sq`. -/
def layerNorm (sq : ℚ → ℚ) (d : ℕ) (w bb : ℕ → ℚ) (eps : ℚ)
    (x : ℕ → ℚ) (c : ℕ) : ℚ :=
  let μ : ℚ := (∑ i in Finset.range d, x i) / d
  let vr : ℚ := (∑ i in Finset.range d, (x i - μ) ^ 2) / d
  w c * ((x c - μ) / sq (vr + eps)) + bb c

/-- Model of `nn.Linear` with input width `din`. -/
def linearMap (din : ℕ) (W : ℕ → ℕ → ℚ) (bias : ℕ → ℚ) (x : ℕ → ℚ)
    (o : ℕ) : ℚ :=
  (∑ i in Finset.range din, W o i * x i) + bias o

/-- The striped layer-norm loop of `Recycling.forward`: for each row block,
`msa[:, rows] = self.norm_msa(msa[:, rows])` and
`pair[:, rows] = self.norm_pair(pair[:, rows])`. -/
def normStripeMP (sq : ℚ → ℚ) (P : RecyclingParams) (L S : ℕ)
    (msa : ℕ → ℕ → ℕ → ℚ) (pair : ℕ → ℕ → ℕ → ℕ → ℚ) :
    (ℕ → ℕ → ℕ → ℚ) × (ℕ → ℕ → ℕ → ℕ → ℚ) :=
  blockFold (nBlocks L S)
    (fun i (acc : (ℕ → ℕ → ℕ → ℚ) × (ℕ → ℕ → ℕ → ℕ → ℚ)) =>
      (fun b r ch => if inBlock S L i r
         then layerNorm sq P.d_msa P.w_msa P.b_msa P.eps (acc.1 b r) ch
         else acc.1 b r ch,
       fun b r c ch => if inBlock S L i r
         then layerNorm sq P.d_pair P.w_pair P.b_pair P.eps (acc.2 b r c) ch
         else acc.2 b r c ch))
    (msa, pair)

/-- A striped row write of a rank-4 tensor:
`t[:, rows] = f[:, rows]` block by block. -/
def rowStripe4 (L S : ℕ) (init : ℕ → ℕ → ℕ → ℕ → ℚ)
    (f : ℕ → ℕ → ℕ → ℕ → ℚ) : ℕ → ℕ → ℕ → ℕ → ℚ :=
  blockFold (nBlocks L S)
    (fun i acc => fun b r c k => if inBlock S L i r then f b r c k else acc b r c k)
    init

/-- A striped in-place row addition of a rank-4 tensor:
`t[:, rows] += add[:, rows]` block by block. -/
def addStripe4 (L S : ℕ) (init : ℕ → ℕ → ℕ → ℕ → ℚ)
    (add : ℕ → ℕ → ℕ → ℕ → ℚ) : ℕ → ℕ → ℕ → ℕ → ℚ :=
  blockFold (nBlocks L S)
    (fun i acc => fun b r c o =>
      if inBlock S L i r then acc b r c o + add b r c o else acc b r c o)
    init

/-- The optional recycle-mask multiply:
`if mask_recycle is not None: dist_CB = mask_recycle[..., None] * dist_CB`. -/
def applyMaskRecycle (mask_recycle : Option (ℕ → ℕ → ℕ → ℚ))
    (dist : ℕ → ℕ → ℕ → ℕ → ℚ) : ℕ → ℕ → ℕ → ℕ → ℚ :=
  match mask_recycle with
  | some m => fun b r c k => m b r c * dist b r c k
  | none => dist

/-- The channel concatenation `torch.cat((dist_CB, left, right), dim=-1)`,
where `left`/`right` broadcast the normalized state over the second/first
residue axis. -/
def catDLR (P : RecyclingParams) (distM : ℕ → ℕ → ℕ → ℕ → ℚ)
    (state1 : ℕ → ℕ → ℕ → ℚ) : ℕ → ℕ → ℕ → ℕ → ℚ :=
  fun b r c j =>
    if j < P.d_rbf then distM b r c j
    else if j < P.d_rbf + P.d_state then state1 b r (j - P.d_rbf)
    else state1 b c (j - P.d_rbf - P.d_state)

/-- Forward pass of `Recycling` (`Embeddings.py` lines 460-511).
Tensor index order: batch `b`, residues `r`,`c`, channel `ch`/`k`/`o`/`j`,
atom `a`.  `sq` is the square root, `getCb` models `util.get_Cb` applied to
the N, Ca, C atoms, `rbfF` models `util_module.rbf` as distance → channel. -/
def Recycling.forward (P : RecyclingParams) (sq : ℚ → ℚ)
    (getCb : (Fin 3 → ℚ) → (Fin 3 → ℚ) → (Fin 3 → ℚ) → Fin 3 → ℚ)
    (rbfF : ℚ → ℕ → ℚ)
    (L : ℕ)
    (msa : ℕ → ℕ → ℕ → ℚ)
    (pair : ℕ → ℕ → ℕ → ℕ → ℚ)
    (state : ℕ → ℕ → ℕ → ℚ)
    (xyz : ℕ → ℕ → ℕ → Fin 3 → ℚ)
    (stride : ℤ) (training : Bool)
    (mask_recycle : Option (ℕ → ℕ → ℕ → ℚ)) :
    (ℕ → ℕ → ℕ → ℚ) × (ℕ → ℕ → ℕ → ℕ → ℚ) × (ℕ → ℕ → ℕ → ℚ) :=
  -- STRIDE = L; if not self.training and stride > 0: STRIDE = stride
  let STRIDE : ℕ := if ¬training ∧ 0 < stride then stride.toNat else L
  -- state = self.norm_state(state)
  let state1 : ℕ → ℕ → ℕ → ℚ :=
    fun b r => layerNorm sq P.d_state P.w_state P.b_state P.eps (state b r)
  -- striped or single-pass layer norm of msa and pair
  let mp :=
    if STRIDE < L then
      normStripeMP sq P L STRIDE msa pair
    else
      ((fun b r => layerNorm sq P.d_msa P.w_msa P.b_msa P.eps (msa b r)),
       (fun b r c => layerNorm sq P.d_pair P.w_pair P.b_pair P.eps (pair b r c)))
  -- Cb = get_Cb(xyz[:,:,:3])
  let Cb : ℕ → ℕ → Fin 3 → ℚ := fun b r => getCb (xyz b r 0) (xyz b r 1) (xyz b r 2)
  -- torch.cdist: pairwise Euclidean distance
  let cd : ℕ → ℕ → ℕ → ℚ := fun b r c => sq (∑ i, (Cb b r i - Cb b c i) ^ 2)
  -- dist_CB, striped (into a zero buffer) or single pass
  let dist0 : ℕ → ℕ → ℕ → ℕ → ℚ :=
    if STRIDE < L then
      rowStripe4 L STRIDE (fun _ _ _ _ => 0) (fun b r c k => rbfF (cd b r c) k)
    else
      fun b r c k => rbfF (cd b r c) k
  -- mask multiply, then torch.cat((dist_CB, left, right), dim=-1)
  let dcat : ℕ → ℕ → ℕ → ℕ → ℚ :=
    catDLR P (applyMaskRecycle mask_recycle dist0) state1
  let din : ℕ := P.d_rbf + 2 * P.d_state
  -- pair += self.proj_dist(dist_CB), striped or single pass
  let pair2 : ℕ → ℕ → ℕ → ℕ → ℚ :=
    if STRIDE < L then
      addStripe4 L STRIDE mp.2
        (fun b r c o => linearMap din P.w_dist P.bias_dist (dcat b r c) o)
    else
      fun b r c o => mp.2 b r c o + linearMap din P.w_dist P.bias_dist (dcat b r c) o
  (mp.1, pair2, state1)

/-- The recycle-merge in `RoseTTAFoldModule.forward`:
`msa_latent[:, 0] += msa_recycle; pair += pair_recycle; state += state_recycle`.
Index order of `msa_latent`: batch, alignment row `n`, residue, channel. -/
def mergeRecycle (msa_latent : ℕ → ℕ → ℕ → ℕ → ℚ) (pair : ℕ → ℕ → ℕ → ℕ → ℚ)
    (state : ℕ → ℕ → ℕ → ℚ) (msaR : ℕ → ℕ → ℕ → ℚ)
    (pairR : ℕ → ℕ → ℕ → ℕ → ℚ) (stateR : ℕ → ℕ → ℕ → ℚ) :
    (ℕ → ℕ → ℕ → ℕ → ℚ) × (ℕ → ℕ → ℕ → ℕ → ℚ) × (ℕ → ℕ → ℕ → ℚ) :=
  (fun b n r ch => if n = 0 then msa_latent b n r ch + msaR b r ch
                   else msa_latent b n r ch,
   fun b r c ch => pair b r c ch + pairR b r c ch,
   fun b r ch => state b r ch + stateR b r ch)

theorem rowStripe4_eval (L S : ℕ) (init f : ℕ → ℕ → ℕ → ℕ → ℚ)
    (hS : 0 < S) {b r c k : ℕ} (hr : r < L) :
    rowStripe4 L S init f b r c k = f b r c k := by
  unfold rowStripe4
  refine blockFold_write _ init (fun T => T b r c k) (f b r c k) (r / S)
    ?_ ?_ ?_ (nBlocks L S) (div_lt_nBlocks hS hr)
  · intro i acc hi hacc
    have hnb : ¬ inBlock S L i r := not_inBlock_of_lt_div hi
    simpa [hnb] using hacc
  · intro acc _
    have hb : inBlock S L (r / S) r := inBlock_self hS hr
    simp [hb]
  · intro i acc hi hacc
    have hnb : ¬ inBlock S L i r := not_inBlock_of_div_lt hS hi
    simpa [hnb] using hacc

theorem addStripe4_eval (L S : ℕ) (init add : ℕ → ℕ → ℕ → ℕ → ℚ)
    (hS : 0 < S) {b r c o : ℕ} (hr : r < L) :
    addStripe4 L S init add b r c o = init b r c o + add b r c o := by
  unfold addStripe4
  refine blockFold_write _ init (fun T => T b r c o)
    (init b r c o + add b r c o) (r / S) ?_ ?_ ?_ (nBlocks L S)
    (div_lt_nBlocks hS hr)
  · intro i acc hi hacc
    have hnb : ¬ inBlock S L i r := not_inBlock_of_lt_div hi
    simpa [hnb] using hacc
  · intro acc hacc
    have hb : inBlock S L (r / S) r := inBlock_self hS hr
    simp [hb, hacc]
  · intro i acc hi hacc
    have hnb : ¬ inBlock S L i r := not_inBlock_of_div_lt hS hi
    simpa [hnb] using hacc

theorem normStripeMP_msa_eval (sq : ℚ → ℚ) (P : RecyclingParams) (L S : ℕ)
    (msa : ℕ → ℕ → ℕ → ℚ) (pair : ℕ → ℕ → ℕ → ℕ → ℚ)
    (hS : 0 < S) {b r ch : ℕ} (hr : r < L) :
    (normStripeMP sq P L S msa pair).1 b r ch =
      layerNorm sq P.d_msa P.w_msa P.b_msa P.eps (msa b r) ch := by
  unfold normStripeMP
  refine congrFun (blockFold_write _ (msa, pair) (fun T => T.1 b r)
    (layerNorm sq P.d_msa P.w_msa P.b_msa P.eps (msa b r)) (r / S)
    ?_ ?_ ?_ (nBlocks L S) (div_lt_nBlocks hS hr)) ch
  · intro i acc hi hacc
    have hnb : ¬ inBlock S L i r := not_inBlock_of_lt_div hi
    funext ch2
    show (if inBlock S L i r then _ else acc.1 b r ch2) = msa b r ch2
    rw [if_neg hnb]
    exact congrFun hacc ch2
  · intro acc hacc
    have hb : inBlock S L (r / S) r := inBlock_self hS hr
    funext ch2
    show (if inBlock S L (r / S) r then
        layerNorm sq P.d_msa P.w_msa P.b_msa P.eps (acc.1 b r) ch2
      else acc.1 b r ch2) = _
    rw [if_pos hb]
    have hacc2 : acc.1 b r = msa b r := hacc
    rw [hacc2]
  · intro i acc hi hacc
    have hnb : ¬ inBlock S L i r := not_inBlock_of_div_lt hS hi
    funext ch2
    show (if inBlock S L i r then _ else acc.1 b r ch2) = _
    rw [if_neg hnb]
    exact congrFun hacc ch2

theorem normStripeMP_pair_eval (sq : ℚ → ℚ) (P : RecyclingParams) (L S : ℕ)
    (msa : ℕ → ℕ → ℕ → ℚ) (pair : ℕ → ℕ → ℕ → ℕ → ℚ)
    (hS : 0 < S) {b r c ch : ℕ} (hr : r < L) :
    (normStripeMP sq P L S msa pair).2 b r c ch =
      layerNorm sq P.d_pair P.w_pair P.b_pair P.eps (pair b r c) ch := by
  unfold normStripeMP
  refine congrFun (blockFold_write _ (msa, pair) (fun T => T.2 b r c)
    (layerNorm sq P.d_pair P.w_pair P.b_pair P.eps (pair b r c)) (r / S)
    ?_ ?_ ?_ (nBlocks L S) (div_lt_nBlocks hS hr)) ch
  · intro i acc hi hacc
    have hnb : ¬ inBlock S L i r := not_inBlock_of_lt_div hi
    funext ch2
    show (if inBlock S L i r then _ else acc.2 b r c ch2) = pair b r c ch2
    rw [if_neg hnb]
    exact congrFun hacc ch2
  · intro acc hacc
    have hb : inBlock S L (r / S) r := inBlock_self hS hr
    funext ch2
    show (if inBlock S L (r / S) r then
        layerNorm sq P.d_pair P.w_pair P.b_pair P.eps (acc.2 b r c) ch2
      else acc.2 b r c ch2) = _
    rw [if_pos hb]
    have hacc2 : acc.2 b r c = pair b r c := hacc
    rw [hacc2]
  · intro i acc hi hacc
    have hnb : ¬ inBlock S L i r := not_inBlock_of_div_lt hS hi
    funext ch2
    show (if inBlock S L i r then _ else acc.2 b r c ch2) = _
    rw [if_neg hnb]
    exact congrFun hacc ch2

/-- A layer norm of an all-zero vector returns exactly the bias entry. -/
theorem layerNorm_zero_input (sq : ℚ → ℚ) (d : ℕ) (w bb : ℕ → ℚ) (eps : ℚ)
    (x : ℕ → ℚ) (hx : ∀ i, x i = 0) (c : ℕ) :
    layerNorm sq d w bb eps x c = bb c := by
  unfold layerNorm
  have hsum : (∑ i in Finset.range d, x i) = 0 := by
    apply Finset.sum_eq_zero
    intro i _
    exact hx i
  simp [hsum, hx]

/-- A linear map applied to an all-zero vector returns exactly the bias. -/
theorem linearMap_zero_input (din : ℕ) (W : ℕ → ℕ → ℚ) (bias : ℕ → ℚ)
    (x : ℕ → ℚ) (hx : ∀ i, x i = 0) (o : ℕ) :
    linearMap din W bias x o = bias o := by
  unfold linearMap
  have hsum : (∑ i in Finset.range din, W o i * x i) = 0 := by
    apply Finset.sum_eq_zero
    intro i _
    simp [hx i]
  simp [hsum]

/-! ### Branch-evaluation lemmas for the striped/unstriped paths -/

theorem posEnc_striped_eq {α : Type} (minpos maxpos : ℤ) (embT : ℕ → α) (z : α)
    (L : ℕ) (idx : ℕ → ℕ → ℤ) (nc : Bool) (S : ℕ) {b r c : ℕ}
    (hS : 0 < S) (hSL : S < L) (hr : r < L) (hc : c < L) :
    posEnc2DForward minpos maxpos embT z L idx (S : ℤ) false nc b r c =
      posEmbAt minpos maxpos embT L idx nc b r c := by
  have hs' : (0:ℤ) < (S:ℤ) := by exact_mod_cast hS
  have hstr : (if ¬(false : Bool) = true ∧ (0:ℤ) < ((S:ℕ):ℤ)
      then ((S:ℕ):ℤ).toNat else L) = S := by
    rw [if_pos ⟨by simp, hs'⟩, Int.toNat_natCast]
  simp only [posEnc2DForward, hstr]
  rw [if_pos ⟨hS, hSL⟩]
  exact stripeGrid_eval _ _ _ _ hS hr hc

theorem posEnc_unstriped_eq {α : Type} (minpos maxpos : ℤ) (embT : ℕ → α)
    (z : α) (L : ℕ) (idx : ℕ → ℕ → ℤ) (nc : Bool) (b r c : ℕ) :
    posEnc2DForward minpos maxpos embT z L idx 0 false nc b r c =
      posEmbAt minpos maxpos embT L idx nc b r c := by
  have hstr : (if ¬(false : Bool) = true ∧ (0:ℤ) < (0:ℤ)
      then (0:ℤ).toNat else L) = L := by
    rw [if_neg (by simp)]
  simp only [posEnc2DForward, hstr]
  rw [if_neg (by simp)]

theorem recycling_striping_eq (P : RecyclingParams) (sq : ℚ → ℚ)
    (getCb : (Fin 3 → ℚ) → (Fin 3 → ℚ) → (Fin 3 → ℚ) → Fin 3 → ℚ)
    (rbfF : ℚ → ℕ → ℚ) (L : ℕ) (msa : ℕ → ℕ → ℕ → ℚ)
    (pair : ℕ → ℕ → ℕ → ℕ → ℚ) (state : ℕ → ℕ → ℕ → ℚ)
    (xyz : ℕ → ℕ → ℕ → Fin 3 → ℚ) (mask : Option (ℕ → ℕ → ℕ → ℚ))
    (S : ℕ) (hS : 0 < S) (hSL : S < L) :
    (∀ b r ch, r < L →
      (Recycling.forward P sq getCb rbfF L msa pair state xyz (S:ℤ) false mask).1
        b r ch =
      (Recycling.forward P sq getCb rbfF L msa pair state xyz 0 false mask).1
        b r ch) ∧
    (∀ b r c ch, r < L →
      (Recycling.forward P sq getCb rbfF L msa pair state xyz (S:ℤ) false mask).2.1
        b r c ch =
      (Recycling.forward P sq getCb rbfF L msa pair state xyz 0 false mask).2.1
        b r c ch) ∧
    (∀ b r ch,
      (Recycling.forward P sq getCb rbfF L msa pair state xyz (S:ℤ) false mask).2.2
        b r ch =
      (Recycling.forward P sq getCb rbfF L msa pair state xyz 0 false mask).2.2
        b r ch) := by
  have hs' : (0:ℤ) < (S:ℤ) := by exact_mod_cast hS
  have hstrS : (if ¬(false : Bool) = true ∧ (0:ℤ) < ((S:ℕ):ℤ)
      then ((S:ℕ):ℤ).toNat else L) = S := by
    rw [if_pos ⟨by simp, hs'⟩, Int.toNat_natCast]
  have hstrU : (if ¬(false : Bool) = true ∧ (0:ℤ) < (0:ℤ)
      then (0:ℤ).toNat else L) = L := by
    rw [if_neg (by simp)]
  have hT : (S < L) = True := eq_true hSL
  have hF : (L < L) = False := eq_false (lt_irrefl L)
  refine ⟨?_, ?_, ?_⟩
  · intro b r ch hr
    simp only [Recycling.forward, hstrS, hstrU, hT, hF, if_true, if_false]
    rw [normStripeMP_msa_eval sq P L S msa pair hS hr]
  · intro b r c ch hr
    simp only [Recycling.forward, hstrS, hstrU, hT, hF, if_true, if_false]
    rw [addStripe4_eval L S _ _ hS hr]
    rw [normStripeMP_pair_eval sq P L S msa pair hS hr]
    congr 1
    unfold linearMap
    congr 1
    refine Finset.sum_congr rfl ?_
    intro j _
    congr 1
    unfold catDLR
    by_cases hj : j < P.d_rbf
    · rw [if_pos hj, if_pos hj]
      cases mask with
      | none =>
        simp only [applyMaskRecycle]
        rw [rowStripe4_eval L S _ _ hS hr]
      | some m =>
        simp only [applyMaskRecycle]
        rw [rowStripe4_eval L S _ _ hS hr]
    · rw [if_neg hj, if_neg hj]
  · intro b r ch
    simp only [Recycling.forward, hstrS, hstrU, hT, hF, if_true, if_false]

/-! ## Claim theorems -/

/-- C2: best-of selection over the recycle loop — a cycle's full output set
replaces the stored best exactly when its mean predicted LDDT is ≥ the best
seen so far, a strictly lower cycle never overwrites, the score trace
[0.3, 0.7, 0.5] retains the cycle-2 outputs, and [0.7, 0.3, 0.3] retains the
cycle-1 outputs (cycles numbered from 1). -/
theorem best_of_selection :
    (∀ (α : Type) (st : BestTrack α) (s : ℚ) (o : α),
      s < st.best_lddt → stepBest st s o = st) ∧
    (∀ (α : Type) (st : BestTrack α) (s : ℚ) (o : α),
      st.best_lddt ≤ s → stepBest st s o = ⟨s, some o⟩) ∧
    runBest [((3:ℚ)/10, 1), ((7:ℚ)/10, 2), ((5:ℚ)/10, 3)] =
      ⟨(7:ℚ)/10, some 2⟩ ∧
    runBest [((7:ℚ)/10, 1), ((3:ℚ)/10, 2), ((3:ℚ)/10, 3)] =
      ⟨(7:ℚ)/10, some 1⟩ := by
  refine ⟨?_, ?_, ?_, ?_⟩
  · intro α st s o h
    simp [stepBest, h]
  · intro α st s o h
    simp [stepBest, not_lt.mpr h]
  · norm_num [runBest, stepBest]
  · norm_num [runBest, stepBest]

/-- Witness for C2 at concrete inputs: a strictly lower cycle (0.3 against a
stored 0.7) is discarded, and a cycle at least as good (0.7 against a stored
0.3) overwrites. -/
theorem best_of_selection_witness :
    stepBest (⟨(7:ℚ)/10, some 1⟩ : BestTrack ℕ) ((3:ℚ)/10) 2 =
      ⟨(7:ℚ)/10, some 1⟩ ∧
    stepBest (⟨(3:ℚ)/10, some 1⟩ : BestTrack ℕ) ((7:ℚ)/10) 2 =
      ⟨(7:ℚ)/10, some 2⟩ :=
  ⟨best_of_selection.1 ℕ ⟨(7:ℚ)/10, some 1⟩ ((3:ℚ)/10) 2 (by norm_num),
   best_of_selection.2.1 ℕ ⟨(3:ℚ)/10, some 1⟩ ((7:ℚ)/10) 2 (by norm_num)⟩

/-- C3 counterexample: two cycles with equal mean LDDT 0.5 — the stored best
after the loop is the LATER cycle's output set, not the earlier one's, so
ties do not favor the earlier cycle. -/
theorem tie_behavior_cex :
    (runBest [((1:ℚ)/2, 1), ((1:ℚ)/2, 2)]).best_out = some 2 ∧
    (runBest [((1:ℚ)/2, 1), ((1:ℚ)/2, 2)]).best_out ≠ some 1 := by
  constructor
  · norm_num [runBest, stepBest]
  · norm_num [runBest, stepBest]

/-- C3 (amended): tie behavior of best-tracking — because `<` is the
rejection test, a later cycle whose mean predicted LDDT exactly equals the
best seen so far is NOT rejected: it overwrites the stored best with its own
outputs, so ties favor the later cycle. -/
theorem tie_favors_later :
    ∀ (α : Type) (st : BestTrack α) (o : α),
      stepBest st st.best_lddt o = ⟨st.best_lddt, some o⟩ := by
  intro α st o
  simp [stepBest]

/-- C6 counterexample: `L = 4`, residue indices `0,1,2,3`, pair `(0, 2)`:
the wrapped difference is `-2 = -L/2`, which is not strictly greater than
`-L/2`, refuting the claimed interval `(-L/2, L/2]` at its lower end. -/
theorem cyclic_interval_cex :
    seqsep 4 (fun _ j => (j : ℤ)) true 0 0 2 = -2 ∧
    wrapCyclic 4 2 = -2 ∧
    ¬ (-((4:ℚ)/2) < ((-2 : ℤ) : ℚ)) := by
  refine ⟨by decide, by decide, by norm_num⟩

/-- C6 (amended): with `nc_cycle` enabled, every pairwise sequence-index
difference of batch row 0 is wrapped by `((d + L//2) mod L) - L//2`, and for
every `L > 0` the wrapped difference lies in `[-(L//2), L-1-L//2]`: at least
`-L/2` (with `-L/2` itself attained for even `L`) and strictly below `L/2`
(stated integrally as `-L ≤ 2*w < L`). -/
theorem cyclic_wrap_range :
    (∀ (L : ℕ) (idx : ℕ → ℕ → ℤ) (r c : ℕ),
      seqsep L idx true 0 r c = wrapCyclic L (idx 0 c - idx 0 r)) ∧
    (∀ (L : ℕ) (d : ℤ), 0 < L →
      -((L:ℤ)/2) ≤ wrapCyclic L d ∧
      wrapCyclic L d ≤ (L:ℤ) - 1 - (L:ℤ)/2 ∧
      -(L:ℤ) ≤ 2 * wrapCyclic L d ∧
      2 * wrapCyclic L d < (L:ℤ)) := by
  constructor
  · intro L idx r c
    simp [seqsep]
  · intro L d hL
    have hL' : (0:ℤ) < (L:ℤ) := by exact_mod_cast hL
    have hm0 : 0 ≤ (d + (L:ℤ)/2) % (L:ℤ) := Int.emod_nonneg _ (by omega)
    have hm1 : (d + (L:ℤ)/2) % (L:ℤ) < (L:ℤ) := Int.emod_lt_of_pos _ hL'
    unfold wrapCyclic
    omega

/-- Witness for C6 (amended) at `L = 5`, `d = 7`: the wrapped value `0`
satisfies all four bounds. -/
theorem cyclic_wrap_range_witness :
    -((5:ℤ)/2) ≤ wrapCyclic 5 7 ∧
    wrapCyclic 5 7 ≤ (5:ℤ) - 1 - (5:ℤ)/2 ∧
    -(5:ℤ) ≤ 2 * wrapCyclic 5 7 ∧
    2 * wrapCyclic 5 7 < (5:ℤ) :=
  cyclic_wrap_range.2 5 7 (by norm_num)

/-- C7: with a nonexistent checkpoint path, `Predictor.__init__` prints the
two diagnostics and terminates before any prediction — but via `sys.exit()`
with no argument, so the process exit status is `0`, not nonzero as the
spec requires. -/
theorem missing_checkpoint_exits_zero :
    predictorInit false "weights.pt" =
      InitOutcome.exited
        ["ERROR: model weights weights.pt not found",
         "ERROR: failed to load model"] 0 ∧
    (∀ msgs status, predictorInit false "weights.pt" =
        InitOutcome.exited msgs status → status = 0) := by
  constructor
  · decide
  · intro msgs status h
    have h2 : predictorInit false "weights.pt" =
        InitOutcome.exited
          ["ERROR: model weights weights.pt not found",
           "ERROR: failed to load model"] 0 := by decide
    rw [h2] at h
    cases h
    rfl

/-- C10: `PositionalEncoding2D.forward` fills the separation tensor only for
batch index 0; at every batch entry `b ≥ 1` it keeps the constant fill `100`,
which (with the default `minpos = -32`, `maxpos = 32`) bucketizes to the
topmost clamp bin `64`, so the returned encoding there is the constant
embedding row `embT 64`, independent of the residue-index input. -/
theorem batch_fill_constant :
    (∀ (L : ℕ) (idx : ℕ → ℕ → ℤ) (nc : Bool) (b r c : ℕ), 1 ≤ b →
      seqsep L idx nc b r c = 100) ∧
    bucketize (intRange (-32) 32) 100 = 64 ∧
    (∀ (α : Type) (embT : ℕ → α) (z : α) (L : ℕ) (idx : ℕ → ℕ → ℤ)
       (stride : ℤ) (training nc : Bool) (b r c : ℕ),
      1 ≤ b → r < L → c < L →
      posEnc2DForward (-32) 32 embT z L idx stride training nc b r c =
        embT 64) := by
  have hsep : ∀ (L : ℕ) (idx : ℕ → ℕ → ℤ) (nc : Bool) (b r c : ℕ), 1 ≤ b →
      seqsep L idx nc b r c = 100 := by
    intro L idx nc b r c hb
    have hb0 : b ≠ 0 := by omega
    simp [seqsep, hb0]
  have hbuck : bucketize (intRange (-32) 32) 100 = 64 := by decide
  refine ⟨hsep, hbuck, ?_⟩
  intro α embT z L idx stride training nc b r c hb hr hc
  have hemb : posEmbAt (-32) 32 embT L idx nc b r c = embT 64 := by
    unfold posEmbAt
    rw [hsep L idx nc b r c hb, hbuck]
  unfold posEnc2DForward
  by_cases hcond : 0 < (if ¬training ∧ 0 < stride then stride.toNat else L) ∧
      (if ¬training ∧ 0 < stride then stride.toNat else L) < L
  · rw [if_pos hcond]
    rw [stripeGrid_eval _ _ _ _ hcond.1 hr hc]
    exact hemb
  · rw [if_neg hcond]
    exact hemb

/-- Witness for C10 at concrete inputs (`L = 2`, identity indices, batch
entry 1, striped with stride 1): the encoding equals the constant row 64. -/
theorem batch_fill_constant_witness :
    posEnc2DForward (-32) 32 (fun n => n) 0 2 (fun _ j => (j : ℤ)) 1
      false false 1 0 1 = 64 :=
  batch_fill_constant.2.2 ℕ (fun n => n) 0 2 (fun _ j => (j : ℤ)) 1
    false false 1 0 1 (by norm_num) (by norm_num) (by norm_num)

/-- C8: NaN torsion repair — under the spec model of `get_torsions` (a
degenerate torsion angle is NaN as a whole, so a NaN sine component implies a
NaN cosine component), every NaN entry of `alpha` is replaced by zero, every
torsion with a NaN entry has its validity-mask bit cleared, finite entries
are unchanged, and the assembled `alpha_t` features contain no NaN. -/
theorem nan_torsion_repair :
    ∀ (alpha : ℕ → ℕ → ℕ → ℕ → Option ℚ) (mask : ℕ → ℕ → ℕ → Bool),
      (∀ t r k, (alpha t r k 1).isNone → (alpha t r k 0).isNone) →
      (∀ t r k c, (repair_alpha alpha t r k c).isSome) ∧
      (∀ t r k c, (alpha t r k c).isNone → repair_alpha alpha t r k c = some 0) ∧
      (∀ t r k c, (alpha t r k c).isSome →
        repair_alpha alpha t r k c = alpha t r k c) ∧
      (∀ t r k, ((alpha t r k 0).isNone ∨ (alpha t r k 1).isNone) →
        repair_mask alpha mask t r k = false) ∧
      (∀ t r k, (alpha_t_feat alpha mask t r k).1.isSome ∧
        (alpha_t_feat alpha mask t r k).2.1.isSome) := by
  intro alpha mask hNaN
  have hsome : ∀ t r k c, (repair_alpha alpha t r k c).isSome := by
    intro t r k c
    unfold repair_alpha
    cases alpha t r k c <;> simp
  refine ⟨hsome, ?_, ?_, ?_, ?_⟩
  · intro t r k c hnone
    unfold repair_alpha
    rw [Option.isNone_iff_eq_none.mp hnone]
  · intro t r k c hsome2
    unfold repair_alpha
    rcases Option.isSome_iff_exists.mp hsome2 with ⟨v, hv⟩
    rw [hv]
  · intro t r k hnone
    unfold repair_mask
    have h0 : (alpha t r k 0).isNone := by
      rcases hnone with h | h
      · exact h
      · exact hNaN t r k h
    rw [h0]
    simp
  · intro t r k
    exact ⟨hsome t r k 0, hsome t r k 1⟩

/-- Witness for C8: an all-NaN torsion tensor — the repaired entry is zero,
the validity bit is cleared, and the mask-implication hypothesis holds. -/
theorem nan_torsion_repair_witness :
    repair_alpha (fun _ _ _ _ => none) 0 0 0 0 = some 0 ∧
    repair_mask (fun _ _ _ _ => (none : Option ℚ)) (fun _ _ _ => true) 0 0 0
      = false :=
  ⟨(nan_torsion_repair (fun _ _ _ _ => none) (fun _ _ _ => true)
      (fun _ _ _ h => h)).2.1 0 0 0 0 rfl,
   (nan_torsion_repair (fun _ _ _ _ => none) (fun _ _ _ => true)
      (fun _ _ _ h => h)).2.2.2.1 0 0 0 (Or.inl rfl)⟩

/-- C1: the recycle-loop logging statement reads `rmsd`, which no statement
of the loop body assigns (its computation is commented out), so for every
environment that does not already bind `rmsd`, the first cycle's evaluation
stops at a NameError instead of completing the cycle. -/
theorem rmsd_unbound_name_error :
    "rmsd" ∉ assignedNames cycleBody ∧
    Stmt.printUse ["i_cycle", "pred_lddt", "logits_pae", "rmsd"] ∈ cycleBody ∧
    (∀ env : List String, env.contains "rmsd" = false →
      runCycle env = .error "NameError: name rmsd is not defined") := by
  refine ⟨by decide, by decide, ?_⟩
  intro env henv
  have h2 : ¬ ("rmsd" ∈ env) := by simpa using henv
  simp [runCycle, cycleBody, runStmts, List.find?, List.contains_cons, h2]

/-- Witness for C1: starting from the empty environment (and hence from any
environment of the pre-loop assignments, none of which binds `rmsd`), the
cycle evaluates to the NameError. -/
theorem rmsd_unbound_name_error_witness :
    runCycle [] = .error "NameError: name rmsd is not defined" :=
  rmsd_unbound_name_error.2.2 [] rfl

/-- C9: symmetry expansion at emission — residues `0..Lasu-1` of the
assembled structure equal the best-cycle asymmetric-unit output unchanged;
for `1 ≤ i < O`, the `i`-th block of `Lasu` residues equals the asymmetric
unit transformed by the rotation `symmRs i`; the sequence and per-residue
LDDT are copied unchanged into every block; and residues at or beyond
`O*Lasu` keep the zero fill, so exactly `O*Lasu` residues are assembled. -/
theorem symmetry_expansion (O Lasu : ℕ) (symmRs : ℕ → Mat3)
    (xyz : ℕ → ℕ → Vec3) (seq : ℕ → ℤ) (lddt : ℕ → ℚ) (hO : 1 ≤ O) :
    (∀ r, r < Lasu →
      (∀ a, symmExpandXyz O Lasu symmRs xyz r a = xyz r a) ∧
      symmExpandSeq O Lasu seq r = seq r ∧
      symmExpandLddt O Lasu lddt r = lddt r) ∧
    (∀ i j, 1 ≤ i → i < O → j < Lasu →
      (∀ a, symmExpandXyz O Lasu symmRs xyz (i * Lasu + j) a =
        mulVec3 (symmRs i) (xyz j a)) ∧
      symmExpandSeq O Lasu seq (i * Lasu + j) = seq j ∧
      symmExpandLddt O Lasu lddt (i * Lasu + j) = lddt j) ∧
    (∀ r, O * Lasu ≤ r →
      (∀ a k, symmExpandXyz O Lasu symmRs xyz r a k = 0) ∧
      symmExpandSeq O Lasu seq r = 0 ∧
      symmExpandLddt O Lasu lddt r = 0) := by
  have hx := blockAssemble_eval Lasu (fun _ _ => (0 : ℚ)) xyz
    (fun i j a => mulVec3 (symmRs i) (xyz j a)) O hO
  have hs := blockAssemble_eval Lasu (0 : ℤ) seq (fun _ j => seq j) O hO
  have hl := blockAssemble_eval Lasu (0 : ℚ) lddt (fun _ j => lddt j) O hO
  refine ⟨?_, ?_, ?_⟩
  · intro r hr
    refine ⟨?_, (hs r).1 hr, (hl r).1 hr⟩
    intro a
    exact congrFun ((hx r).1 hr) a
  · intro i j h1 h2 hj
    refine ⟨?_, (hs _).2.1 i j h1 h2 hj rfl, (hl _).2.1 i j h1 h2 hj rfl⟩
    intro a
    exact congrFun ((hx _).2.1 i j h1 h2 hj rfl) a
  · intro r hr
    refine ⟨?_, (hs r).2.2 hr, (hl r).2.2 hr⟩
    intro a k
    exact congrFun (congrFun ((hx r).2.2 hr) a) k

/-- Witness for C9 at `O = 2`, `Lasu = 1`, rotation entries 2, coordinates 3,
sequence token 5, LDDT 7/10. -/
theorem symmetry_expansion_witness :
    symmExpandXyz 2 1 (fun _ _ _ => 2) (fun _ _ _ => 3) 0 0 = (fun _ _ _ => 3) 0 0 ∧
    symmExpandXyz 2 1 (fun _ _ _ => 2) (fun _ _ _ => 3) 1 0 =
      mulVec3 ((fun _ _ _ => 2) 1) ((fun _ _ _ => 3) 0 0) ∧
    symmExpandSeq 2 1 (fun _ => 5) 1 = 5 ∧
    symmExpandLddt 2 1 (fun _ => (7:ℚ)/10) 1 = (7:ℚ)/10 ∧
    symmExpandSeq 2 1 (fun _ => 5) 2 = 0 := by
  have h := symmetry_expansion 2 1 (fun _ _ _ => 2) (fun _ _ _ => 3)
    (fun _ => 5) (fun _ => (7:ℚ)/10) (by norm_num)
  refine ⟨(h.1 0 (by norm_num)).1 0, ?_, ?_, ?_, ?_⟩
  · exact (h.2.1 1 0 (by norm_num) (by norm_num) (by norm_num)).1 0
  · exact (h.2.1 1 0 (by norm_num) (by norm_num) (by norm_num)).2.1
  · exact (h.2.1 1 0 (by norm_num) (by norm_num) (by norm_num)).2.2
  · exact (h.2.2 2 (by norm_num)).2.1

/-- C5: striping equivalence — for every residue count `L` and stride
`0 < S < L` (inference mode), the chunked (striped) blockwise evaluation of
the relative positional encoding (`PositionalEncoding2D.forward`) and of the
recycling normalization/distance path (`Recycling.forward`) is identical to
the single-pass unstriped evaluation taken when striding is disabled
(`stride = 0`, hence `STRIDE = L`), at every in-range tensor index.  Over
`ℚ` with an abstract square root the agreement is exact, which implies the
claim's floating-point-tolerance version. -/
theorem striping_equivalence :
    (∀ (α : Type) (minpos maxpos : ℤ) (embT : ℕ → α) (z : α) (L : ℕ)
       (idx : ℕ → ℕ → ℤ) (nc : Bool) (S b r c : ℕ),
      0 < S → S < L → r < L → c < L →
      posEnc2DForward minpos maxpos embT z L idx (S : ℤ) false nc b r c =
        posEnc2DForward minpos maxpos embT z L idx 0 false nc b r c) ∧
    (∀ (P : RecyclingParams) (sq : ℚ → ℚ)
       (getCb : (Fin 3 → ℚ) → (Fin 3 → ℚ) → (Fin 3 → ℚ) → Fin 3 → ℚ)
       (rbfF : ℚ → ℕ → ℚ) (L : ℕ) (msa : ℕ → ℕ → ℕ → ℚ)
       (pair : ℕ → ℕ → ℕ → ℕ → ℚ) (state : ℕ → ℕ → ℕ → ℚ)
       (xyz : ℕ → ℕ → ℕ → Fin 3 → ℚ) (mask : Option (ℕ → ℕ → ℕ → ℚ))
       (S : ℕ), 0 < S → S < L →
      (∀ b r ch, r < L →
        (Recycling.forward P sq getCb rbfF L msa pair state xyz (S:ℤ)
          false mask).1 b r ch =
        (Recycling.forward P sq getCb rbfF L msa pair state xyz 0
          false mask).1 b r ch) ∧
      (∀ b r c ch, r < L →
        (Recycling.forward P sq getCb rbfF L msa pair state xyz (S:ℤ)
          false mask).2.1 b r c ch =
        (Recycling.forward P sq getCb rbfF L msa pair state xyz 0
          false mask).2.1 b r c ch) ∧
      (∀ b r ch,
        (Recycling.forward P sq getCb rbfF L msa pair state xyz (S:ℤ)
          false mask).2.2 b r ch =
        (Recycling.forward P sq getCb rbfF L msa pair state xyz 0
          false mask).2.2 b r ch)) := by
  constructor
  · intro α minpos maxpos embT z L idx nc S b r c hS hSL hr hc
    rw [posEnc_striped_eq minpos maxpos embT z L idx nc S hS hSL hr hc,
        posEnc_unstriped_eq]
  · intro P sq getCb rbfF L msa pair state xyz mask S hS hSL
    exact recycling_striping_eq P sq getCb rbfF L msa pair state xyz mask S hS hSL

/-- Parameter instance used by the concrete striping/recycling witnesses:
all dimensions 1, unit weights, zero biases. -/
def unitParams : RecyclingParams :=
  ⟨1, 1, 1, 1, fun _ => 1, fun _ => 0, fun _ => 1, fun _ => 0,
   fun _ => 1, fun _ => 0, 0, fun _ _ => 0, fun _ => 0⟩

/-- Witness for C5 at concrete inputs: `L = 2`, stride `S = 1`, identity
residue index, and a unit-parameter recycling instance on zero tensors. -/
theorem striping_equivalence_witness :
    (posEnc2DForward (-32) 32 (fun n => n) 0 2 (fun _ j => (j:ℤ)) ((1:ℕ):ℤ)
      false false 0 0 1 =
     posEnc2DForward (-32) 32 (fun n => n) 0 2 (fun _ j => (j:ℤ)) 0
      false false 0 0 1) ∧
    ((Recycling.forward unitParams (fun x => x) (fun _ _ _ _ => 0)
        (fun _ _ => 0) 2 (fun _ _ _ => 0) (fun _ _ _ _ => 0) (fun _ _ _ => 0)
        (fun _ _ _ _ => 0) ((1:ℕ):ℤ) false none).1 0 0 0 =
     (Recycling.forward unitParams (fun x => x) (fun _ _ _ _ => 0)
        (fun _ _ => 0) 2 (fun _ _ _ => 0) (fun _ _ _ _ => 0) (fun _ _ _ => 0)
        (fun _ _ _ _ => 0) 0 false none).1 0 0 0) :=
  ⟨striping_equivalence.1 ℕ (-32) 32 (fun n => n) 0 2 (fun _ j => (j:ℤ))
      false 1 0 0 1 (by norm_num) (by norm_num) (by norm_num) (by norm_num),
   (striping_equivalence.2 unitParams (fun x => x) (fun _ _ _ _ => 0)
      (fun _ _ => 0) 2 (fun _ _ _ => 0) (fun _ _ _ _ => 0) (fun _ _ _ => 0)
      (fun _ _ _ _ => 0) none 1 (by norm_num) (by norm_num)).1 0 0 0
      (by norm_num)⟩

/-! ### Zero-propagation lemmas for the first-cycle recycling input -/

theorem normStripeMP_zero (sq : ℚ → ℚ) (P : RecyclingParams) (L S : ℕ)
    (hbm : ∀ ch, P.b_msa ch = 0) (hbp : ∀ ch, P.b_pair ch = 0) :
    (∀ b r ch,
      (normStripeMP sq P L S (fun _ _ _ => 0) (fun _ _ _ _ => 0)).1 b r ch = 0) ∧
    (∀ b r c ch,
      (normStripeMP sq P L S (fun _ _ _ => 0) (fun _ _ _ _ => 0)).2 b r c ch = 0) := by
  unfold normStripeMP
  refine blockFold_invar _ _
    (fun (T : (ℕ → ℕ → ℕ → ℚ) × (ℕ → ℕ → ℕ → ℕ → ℚ)) =>
      (∀ b r ch, T.1 b r ch = 0) ∧ (∀ b r c ch, T.2 b r c ch = 0))
    ⟨fun _ _ _ => rfl, fun _ _ _ _ => rfl⟩ ?_ (nBlocks L S)
  intro i T hT
  constructor
  · intro b r ch
    show (if inBlock S L i r then
        layerNorm sq P.d_msa P.w_msa P.b_msa P.eps (T.1 b r) ch
      else T.1 b r ch) = 0
    by_cases hib : inBlock S L i r
    · rw [if_pos hib,
        layerNorm_zero_input sq P.d_msa P.w_msa P.b_msa P.eps _
          (fun i2 => hT.1 b r i2) ch]
      exact hbm ch
    · rw [if_neg hib]
      exact hT.1 b r ch
  · intro b r c ch
    show (if inBlock S L i r then
        layerNorm sq P.d_pair P.w_pair P.b_pair P.eps (T.2 b r c) ch
      else T.2 b r c ch) = 0
    by_cases hib : inBlock S L i r
    · rw [if_pos hib,
        layerNorm_zero_input sq P.d_pair P.w_pair P.b_pair P.eps _
          (fun i2 => hT.2 b r c i2) ch]
      exact hbp ch
    · rw [if_neg hib]
      exact hT.2 b r c ch

theorem addStripe4_zero (L S : ℕ) (init add : ℕ → ℕ → ℕ → ℕ → ℚ)
    (h0 : ∀ b r c o, init b r c o = 0) (ha : ∀ b r c o, add b r c o = 0) :
    ∀ b r c o, addStripe4 L S init add b r c o = 0 := by
  unfold addStripe4
  refine blockFold_invar _ _
    (fun (T : ℕ → ℕ → ℕ → ℕ → ℚ) => ∀ b r c o, T b r c o = 0) h0 ?_
    (nBlocks L S)
  intro i T hT b r c o
  show (if inBlock S L i r then T b r c o + add b r c o else T b r c o) = 0
  by_cases hib : inBlock S L i r
  · rw [if_pos hib, hT b r c o, ha b r c o, add_zero]
  · rw [if_neg hib]
    exact hT b r c o

theorem catDLR_zero (P : RecyclingParams) (distM : ℕ → ℕ → ℕ → ℕ → ℚ)
    (s1 : ℕ → ℕ → ℕ → ℚ) (hd : ∀ b r c k, distM b r c k = 0)
    (hs : ∀ b r ch, s1 b r ch = 0) :
    ∀ b r c j, catDLR P distM s1 b r c j = 0 := by
  intro b r c j
  unfold catDLR
  by_cases h1 : j < P.d_rbf
  · rw [if_pos h1]
    exact hd b r c j
  · rw [if_neg h1]
    by_cases h2 : j < P.d_rbf + P.d_state
    · rw [if_pos h2]
      exact hs b r _
    · rw [if_neg h2]
      exact hs b c _

/-- C4 (amended): with the first cycle's all-zero previous MSA, pair and
state placeholders, `Recycling.forward` returns zero corrections — making
the recycle-merge equivalent to skipping the recycling step — only under
conditions the claim omits: the three layer-norm biases and the projection
bias must be zero, and the recycle mask must zero every residue pair.
Without them the state and msa corrections equal the layer-norm bias
vectors and the pair correction additionally carries the projected
coordinate-distance features (see the counterexample). -/
theorem recycle_zero_input_conditional (P : RecyclingParams) (sq : ℚ → ℚ)
    (getCb : (Fin 3 → ℚ) → (Fin 3 → ℚ) → (Fin 3 → ℚ) → Fin 3 → ℚ)
    (rbfF : ℚ → ℕ → ℚ) (L : ℕ) (xyz : ℕ → ℕ → ℕ → Fin 3 → ℚ)
    (stride : ℤ) (training : Bool) (mz : ℕ → ℕ → ℕ → ℚ)
    (hbm : ∀ ch, P.b_msa ch = 0) (hbp : ∀ ch, P.b_pair ch = 0)
    (hbs : ∀ ch, P.b_state ch = 0) (hbd : ∀ o, P.bias_dist o = 0)
    (hmz : ∀ b r c, mz b r c = 0) :
    (∀ b r ch, (Recycling.forward P sq getCb rbfF L (fun _ _ _ => 0)
        (fun _ _ _ _ => 0) (fun _ _ _ => 0) xyz stride training
        (some mz)).1 b r ch = 0) ∧
    (∀ b r c ch, (Recycling.forward P sq getCb rbfF L (fun _ _ _ => 0)
        (fun _ _ _ _ => 0) (fun _ _ _ => 0) xyz stride training
        (some mz)).2.1 b r c ch = 0) ∧
    (∀ b r ch, (Recycling.forward P sq getCb rbfF L (fun _ _ _ => 0)
        (fun _ _ _ _ => 0) (fun _ _ _ => 0) xyz stride training
        (some mz)).2.2 b r ch = 0) ∧
    (∀ (msaL pairF : ℕ → ℕ → ℕ → ℕ → ℚ) (stateF : ℕ → ℕ → ℕ → ℚ)
       (b n r c ch : ℕ),
      (mergeRecycle msaL pairF stateF
        (Recycling.forward P sq getCb rbfF L (fun _ _ _ => 0)
          (fun _ _ _ _ => 0) (fun _ _ _ => 0) xyz stride training
          (some mz)).1
        (Recycling.forward P sq getCb rbfF L (fun _ _ _ => 0)
          (fun _ _ _ _ => 0) (fun _ _ _ => 0) xyz stride training
          (some mz)).2.1
        (Recycling.forward P sq getCb rbfF L (fun _ _ _ => 0)
          (fun _ _ _ _ => 0) (fun _ _ _ => 0) xyz stride training
          (some mz)).2.2).1 b n r ch = msaL b n r ch ∧
      (mergeRecycle msaL pairF stateF
        (Recycling.forward P sq getCb rbfF L (fun _ _ _ => 0)
          (fun _ _ _ _ => 0) (fun _ _ _ => 0) xyz stride training
          (some mz)).1
        (Recycling.forward P sq getCb rbfF L (fun _ _ _ => 0)
          (fun _ _ _ _ => 0) (fun _ _ _ => 0) xyz stride training
          (some mz)).2.1
        (Recycling.forward P sq getCb rbfF L (fun _ _ _ => 0)
          (fun _ _ _ _ => 0) (fun _ _ _ => 0) xyz stride training
          (some mz)).2.2).2.1 b r c ch = pairF b r c ch ∧
      (mergeRecycle msaL pairF stateF
        (Recycling.forward P sq getCb rbfF L (fun _ _ _ => 0)
          (fun _ _ _ _ => 0) (fun _ _ _ => 0) xyz stride training
          (some mz)).1
        (Recycling.forward P sq getCb rbfF L (fun _ _ _ => 0)
          (fun _ _ _ _ => 0) (fun _ _ _ => 0) xyz stride training
          (some mz)).2.1
        (Recycling.forward P sq getCb rbfF L (fun _ _ _ => 0)
          (fun _ _ _ _ => 0) (fun _ _ _ => 0) xyz stride training
          (some mz)).2.2).2.2 b r ch = stateF b r ch) := by
  have hstate : ∀ ch : ℕ,
      layerNorm sq P.d_state P.w_state P.b_state P.eps (fun _ => (0:ℚ)) ch
        = 0 := by
    intro ch
    rw [layerNorm_zero_input sq P.d_state P.w_state P.b_state P.eps _
      (fun _ => rfl) ch]
    exact hbs ch
  have h1 : ∀ b r ch, (Recycling.forward P sq getCb rbfF L (fun _ _ _ => 0)
      (fun _ _ _ _ => 0) (fun _ _ _ => 0) xyz stride training
      (some mz)).1 b r ch = 0 := by
    intro b r ch
    simp only [Recycling.forward]
    generalize (if ¬training = true ∧ 0 < stride then stride.toNat else L) = ST
    by_cases hst : ST < L
    · rw [if_pos hst]
      exact (normStripeMP_zero sq P L ST hbm hbp).1 b r ch
    · rw [if_neg hst]
      show layerNorm sq P.d_msa P.w_msa P.b_msa P.eps (fun _ => (0:ℚ)) ch = 0
      rw [layerNorm_zero_input sq P.d_msa P.w_msa P.b_msa P.eps _
        (fun _ => rfl) ch]
      exact hbm ch
  have h3 : ∀ b r ch, (Recycling.forward P sq getCb rbfF L (fun _ _ _ => 0)
      (fun _ _ _ _ => 0) (fun _ _ _ => 0) xyz stride training
      (some mz)).2.2 b r ch = 0 := by
    intro b r ch
    show layerNorm sq P.d_state P.w_state P.b_state P.eps (fun _ => (0:ℚ)) ch
      = 0
    exact hstate ch
  have hlin : ∀ (D : ℕ → ℕ → ℕ → ℕ → ℚ) (b r c o : ℕ),
      linearMap (P.d_rbf + 2 * P.d_state) P.w_dist P.bias_dist
        (catDLR P (applyMaskRecycle (some mz) D)
          (fun _ _ => layerNorm sq P.d_state P.w_state P.b_state P.eps
            (fun _ => (0:ℚ))) b r c) o = 0 := by
    intro D b r c o
    have hd : ∀ b2 r2 c2 k, applyMaskRecycle (some mz) D b2 r2 c2 k = 0 := by
      intro b2 r2 c2 k
      show mz b2 r2 c2 * D b2 r2 c2 k = 0
      rw [hmz b2 r2 c2, zero_mul]
    rw [linearMap_zero_input _ _ _ _
      (fun j => catDLR_zero P _ _ hd (fun _ _ ch2 => hstate ch2) b r c j) o]
    exact hbd o
  have h2 : ∀ b r c ch, (Recycling.forward P sq getCb rbfF L (fun _ _ _ => 0)
      (fun _ _ _ _ => 0) (fun _ _ _ => 0) xyz stride training
      (some mz)).2.1 b r c ch = 0 := by
    intro b r c ch
    simp only [Recycling.forward]
    generalize (if ¬training = true ∧ 0 < stride then stride.toNat else L) = ST
    by_cases hst : ST < L
    · rw [if_pos hst]
      refine addStripe4_zero _ _ _ _ ?_ ?_ b r c ch
      · intro b2 r2 c2 o
        rw [if_pos hst]
        exact (normStripeMP_zero sq P L ST hbm hbp).2 b2 r2 c2 o
      · intro b2 r2 c2 o
        exact hlin _ b2 r2 c2 o
    · rw [if_neg hst, hlin _ b r c ch, add_zero, if_neg hst]
      show layerNorm sq P.d_pair P.w_pair P.b_pair P.eps (fun _ => (0:ℚ)) ch
        = 0
      rw [layerNorm_zero_input sq P.d_pair P.w_pair P.b_pair P.eps _
        (fun _ => rfl) ch]
      exact hbp ch
  refine ⟨h1, h2, h3, ?_⟩
  intro msaL pairF stateF b n r c ch
  refine ⟨?_, ?_, ?_⟩
  · simp only [mergeRecycle]
    by_cases hn : n = 0
    · rw [if_pos hn, h1 b r ch, add_zero]
    · rw [if_neg hn]
  · simp only [mergeRecycle]
    rw [h2 b r c ch, add_zero]
  · simp only [mergeRecycle]
    rw [h3 b r ch, add_zero]

/-- Witness for C4 (amended) at concrete inputs: unit parameters (all biases
zero), `L = 1`, zero mask — all three corrections evaluate to zero. -/
theorem recycle_zero_input_conditional_witness :
    (Recycling.forward unitParams (fun x => x) (fun _ _ _ _ => 0)
      (fun _ _ => 0) 1 (fun _ _ _ => 0) (fun _ _ _ _ => 0) (fun _ _ _ => 0)
      (fun _ _ _ _ => 0) 0 false (some (fun _ _ _ => 0))).1 0 0 0 = 0 ∧
    (Recycling.forward unitParams (fun x => x) (fun _ _ _ _ => 0)
      (fun _ _ => 0) 1 (fun _ _ _ => 0) (fun _ _ _ _ => 0) (fun _ _ _ => 0)
      (fun _ _ _ _ => 0) 0 false (some (fun _ _ _ => 0))).2.1 0 0 0 0 = 0 ∧
    (Recycling.forward unitParams (fun x => x) (fun _ _ _ _ => 0)
      (fun _ _ => 0) 1 (fun _ _ _ => 0) (fun _ _ _ _ => 0) (fun _ _ _ => 0)
      (fun _ _ _ _ => 0) 0 false (some (fun _ _ _ => 0))).2.2 0 0 0 = 0 :=
  ⟨(recycle_zero_input_conditional unitParams (fun x => x) (fun _ _ _ _ => 0)
      (fun _ _ => 0) 1 (fun _ _ _ _ => 0) 0 false (fun _ _ _ => 0)
      (fun _ => rfl) (fun _ => rfl) (fun _ => rfl) (fun _ => rfl)
      (fun _ _ _ => rfl)).1 0 0 0,
   (recycle_zero_input_conditional unitParams (fun x => x) (fun _ _ _ _ => 0)
      (fun _ _ => 0) 1 (fun _ _ _ _ => 0) 0 false (fun _ _ _ => 0)
      (fun _ => rfl) (fun _ => rfl) (fun _ => rfl) (fun _ => rfl)
      (fun _ _ _ => rfl)).2.1 0 0 0 0,
   (recycle_zero_input_conditional unitParams (fun x => x) (fun _ _ _ _ => 0)
      (fun _ _ => 0) 1 (fun _ _ _ _ => 0) 0 false (fun _ _ _ => 0)
      (fun _ => rfl) (fun _ => rfl) (fun _ => rfl) (fun _ => rfl)
      (fun _ _ _ => rfl)).2.2.1 0 0 0⟩

/-- Parameter instance for the C4 counterexample: as `unitParams` but with
layer-norm state bias `1` (a perfectly ordinary learned parameter value). -/
def biasParams : RecyclingParams :=
  ⟨1, 1, 1, 1, fun _ => 1, fun _ => 0, fun _ => 1, fun _ => 0,
   fun _ => 1, fun _ => 1, 0, fun _ _ => 0, fun _ => 0⟩

/-- C4 counterexample: with a nonzero layer-norm state bias, the state
correction returned by `Recycling.forward` on the all-zero first-cycle
placeholders is `1`, not `0` — zero previous MSA/pair/state tensors do not
produce zero corrections, so first-cycle recycling is not equivalent to
skipping the recycling step. -/
theorem recycle_zero_input_cex :
    (Recycling.forward biasParams (fun x => x) (fun _ _ _ _ => 0)
      (fun _ _ => 0) 1 (fun _ _ _ => 0) (fun _ _ _ _ => 0) (fun _ _ _ => 0)
      (fun _ _ _ _ => 0) 0 false none).2.2 0 0 0 = 1 ∧ (1:ℚ) ≠ 0 := by
  constructor
  · show layerNorm (fun x => x) biasParams.d_state biasParams.w_state
      biasParams.b_state biasParams.eps ((fun _ _ _ => (0:ℚ)) 0 0) 0 = 1
    simp [layerNorm, biasParams, Finset.sum_range_one]
  · norm_num

end RFantibody
